import Mathlib

/-!
Verification of the `SumPuzzle` engine (puzzle generation and difficulty
estimation).  The JavaScript class `SumPuzzle` is embedded shallowly:

* grids are `List (List Int)`; puzzle cells are `Option Int` (`none` = the
  JS `null` blank marker);
* `Math.random()` draws are modelled by streams `Nat → Nat`; a draw that the
  source takes uniformly in `[0, m)` is embedded as `rand i % m`, so every
  theorem is quantified over all possible sequences of draws;
* mutation of the instance fields becomes explicit state passing on the
  `SumPuzzle` structure;
* the bounded `while` loop of `estimateDifficulty` becomes fuel recursion
  with fuel `maxIterations - iterations`.
-/

/-- A completed grid: list of rows of integers (JS `this.grid`). -/
abbrev Mat := List (List Int)

/-- A puzzle matrix: cells are either a digit or the `null` blank marker. -/
abbrev PMat := List (List (Option Int))

/-- Read `puzzle[r][c]`; out-of-range reads yield the blank marker. -/
def pcell (p : PMat) (r c : Nat) : Option Int :=
  (p.getD r []).getD c none

/-- Read `grid[r][c]`; out-of-range reads yield `0`. -/
def gcell (g : Mat) (r c : Nat) : Int :=
  (g.getD r []).getD c 0

/-- The engine instance state: the fields set by the `SumPuzzle` constructor. -/
structure SumPuzzle where
  size : Nat
  grid : Mat
  puzzle : PMat
  rowSums : List Int
  colSums : List Int
  difficulty : Nat
deriving Repr, DecidableEq

/-- `new SumPuzzle(size)`: stores the size and initialises every other field
to its empty/zero default (the source default size is 4). -/
def construct (size : Nat) : SumPuzzle :=
  { size := size, grid := [], puzzle := [], rowSums := [], colSums := [],
    difficulty := 0 }

/-- `randomDigit()`: `Math.floor(Math.random() * 9) + 1`, i.e. a uniform draw
in `[0,9)` plus one; the raw draw is an arbitrary natural reduced mod 9. -/
def randomDigit (draw : Nat) : Int :=
  ((draw % 9 : Nat) : Int) + 1

/-- `generateCompleteGrid()`: a `size × size` matrix of random digits, drawn
row-major (cell `(i,j)` consumes draw number `i*size + j`). -/
def generateCompleteGrid (s : SumPuzzle) (rand : Nat → Nat) : SumPuzzle :=
  { s with grid :=
      (List.range s.size).map (fun i =>
        (List.range s.size).map (fun j => randomDigit (rand (i * s.size + j)))) }

/-- `calculateSums()`: row sums via `row.reduce((sum,val) => sum+val, 0)`,
column sums via an accumulating loop over rows. -/
def calculateSums (s : SumPuzzle) : SumPuzzle :=
  { s with
    rowSums := s.grid.map (fun row => row.foldl (· + ·) 0),
    colSums := (List.range s.size).map (fun c =>
      (List.range s.size).foldl (fun sum r => sum + gcell s.grid r c) 0) }

/-- The row-major list of all cell coordinates built by the nested
`positions.push([i, j])` loops (also the iteration order of the nested
`for (row) for (col)` scans in `estimateDifficulty`). -/
def allPositions (n : Nat) : List (Nat × Nat) :=
  (List.range n).flatMap (fun i => (List.range n).map (fun j => (i, j)))

/-- The destructuring swap `[positions[i], positions[j]] = [positions[j],
positions[i]]` on a list (identity when an index is out of range, which the
source never hits). -/
def swapAt2 (l : List α) (i j : Nat) : List α :=
  match l.get? i, l.get? j with
  | some a, some b => (l.set i b).set j a
  | _, _ => l

/-- The Fisher–Yates loop `for (i = len-1; i > 0; i--)`: at index `i` swap
with a uniform draw in `[0, i]`, embedded as `rand i % (i+1)`. -/
def fisherYates (rand : Nat → Nat) : Nat → List α → List α
  | 0, l => l
  | k + 1, l => fisherYates rand k (swapAt2 l (k + 1) (rand (k + 1) % (k + 2)))

/-- Shuffle a list by running the Fisher–Yates loop from index `length - 1`
down to `1`. -/
def shuffleList (rand : Nat → Nat) (l : List α) : List α :=
  fisherYates rand (l.length - 1) l

/-- `this.puzzle[row][col] = v` as a pure update (no-op out of range). -/
def setCell (p : PMat) (r c : Nat) (v : Option Int) : PMat :=
  p.set r ((p.getD r []).set c v)

/-- The blanking loop: set each listed position to `null` in order. -/
def blankCells : List (Nat × Nat) → PMat → PMat
  | [], p => p
  | rc :: rest, p => blankCells rest (setCell p rc.1 rc.2 none)

/-- `createPuzzle(emptyCells)`: copy the grid, shuffle the position list, and
blank the first `min(emptyCells, positions.length)` shuffled positions. -/
def createPuzzle (s : SumPuzzle) (emptyCells : Nat) (rand : Nat → Nat) : SumPuzzle :=
  let copy := s.grid.map (fun row => row.map some)
  let positions := allPositions s.size
  let shuffled := shuffleList rand positions
  { s with puzzle := blankCells (shuffled.take (min emptyCells positions.length)) copy }

/-- The row scan of one cell visit in `estimateDifficulty`: fold over the
columns accumulating `(rowSum, rowUnknown)` — the sum of the known cells of
row `r` and the number of its blank cells. -/
def rowScan (size : Nat) (p : PMat) (r : Nat) : Int × Nat :=
  (List.range size).foldl
    (fun acc c =>
      match pcell p r c with
      | some v => (acc.1 + v, acc.2)
      | none => (acc.1, acc.2 + 1))
    (0, 0)

/-- The column scan of one cell visit: `(colSum, colUnknown)` for column `c`. -/
def colScan (size : Nat) (p : PMat) (c : Nat) : Int × Nat :=
  (List.range size).foldl
    (fun acc r =>
      match pcell p r c with
      | some v => (acc.1 + v, acc.2)
      | none => (acc.1, acc.2 + 1))
    (0, 0)

/-- The body of one cell visit of the propagation scan: skip filled cells;
for a blank cell run the row inference when the row has exactly one blank
(filling only when the inferred value lies in `[1,9]`), and **else** (only
when `rowUnknown ≠ 1`) the column inference.  Returns the updated puzzle and
whether this visit filled the cell. -/
def inferStep (size : Nat) (rowSums colSums : List Int) (p : PMat) (r c : Nat) :
    PMat × Bool :=
  match pcell p r c with
  | some _ => (p, false)
  | none =>
    let rs := rowScan size p r
    let cs := colScan size p c
    if rs.2 = 1 then
      let v := rowSums.getD r 0 - rs.1
      if 1 ≤ v ∧ v ≤ 9 then (setCell p r c (some v), true) else (p, false)
    else if cs.2 = 1 then
      let v := colSums.getD c 0 - cs.1
      if 1 ≤ v ∧ v ≤ 9 then (setCell p r c (some v), true) else (p, false)
    else (p, false)

/-- One round of the simulation: visit every cell in row-major order,
threading the working puzzle and or-ing the per-cell progress flags. -/
def onePass (size : Nat) (rowSums colSums : List Int) (p : PMat) : PMat × Bool :=
  (allPositions size).foldl
    (fun acc rc =>
      let st := inferStep size rowSums colSums acc.1 rc.1 rc.2
      (st.1, acc.2 || st.2))
    (p, false)

/-- The `allFilled` double loop: no cell of the working puzzle is blank. -/
def allFilled (size : Nat) (p : PMat) : Bool :=
  (allPositions size).all (fun rc => (pcell p rc.1 rc.2).isSome)

/-- The `while (iterations < maxIterations)` loop, with fuel
`maxIterations - iterations`: run a round, count it, stop on no progress or
on a full puzzle, otherwise recurse.  Returns the final iteration count and
the final working puzzle. -/
def estGo (size : Nat) (rowSums colSums : List Int) :
    Nat → Nat → PMat → Nat × PMat
  | 0, iters, p => (iters, p)
  | fuel + 1, iters, p =>
    let pass := onePass size rowSums colSums p
    if pass.2 = false then (iters + 1, pass.1)
    else if allFilled size pass.1 then (iters + 1, pass.1)
    else estGo size rowSums colSums fuel (iters + 1) pass.1

/-- The source's fixed round cap. -/
def maxIterations : Nat := 100

/-- `estimateDifficulty()`: run the simulation on a working copy of the
puzzle (`tempPuzzle`, a row-by-row copy — pure values here) and store the
iteration count in `this.difficulty`; no other field is assigned. -/
def estimateDifficulty (s : SumPuzzle) : SumPuzzle :=
  { s with difficulty :=
      (estGo s.size s.rowSums s.colSums maxIterations 0 s.puzzle).1 }

/-- `getDifficultyLabel()`: threshold mapping from the stored score to the
four label strings (the spec's "Easy" / "Normal" / "Hard" / "Very Hard"). -/
def getDifficultyLabel (s : SumPuzzle) : String :=
  if s.difficulty ≤ 3 then "簡単 ⭐"
  else if s.difficulty ≤ 6 then "普通 ⭐⭐"
  else if s.difficulty ≤ 10 then "難しい ⭐⭐⭐"
  else "非常に難しい ⭐⭐⭐⭐"

/-- One `if (onProgress) onProgress(x)` site: the (possibly empty) list of
percentages reported at that site. -/
def progressEvents (hasCallback : Bool) (percent : Nat) : List Nat :=
  if hasCallback then [percent] else []

/-- `generate(emptyCells, onProgress)`: the four pipeline stages in order,
with a progress report before the first and after each stage.  The second
component collects the sequence of arguments passed to the observer
(`hasCallback = false` models `onProgress = null`).  `randG` feeds the digit
draws, `randS` the shuffle draws. -/
def generate (s : SumPuzzle) (emptyCells : Nat) (hasCallback : Bool)
    (randG randS : Nat → Nat) : SumPuzzle × List Nat :=
  let ev0 := progressEvents hasCallback 0
  let s1 := generateCompleteGrid s randG
  let ev1 := progressEvents hasCallback 30
  let s2 := calculateSums s1
  let ev2 := progressEvents hasCallback 50
  let s3 := createPuzzle s2 emptyCells randS
  let ev3 := progressEvents hasCallback 70
  let s4 := estimateDifficulty s3
  let ev4 := progressEvents hasCallback 100
  (s4, ev0 ++ ev1 ++ ev2 ++ ev3 ++ ev4)

/-- The result snapshot returned by `getPuzzleData()`. -/
structure PuzzleData where
  size : Nat
  puzzle : PMat
  solution : Mat
  rowSums : List Int
  colSums : List Int
  difficulty : Nat
  difficultyLabel : String
deriving Repr, DecidableEq

/-- `getPuzzleData()`: read-only projection of the instance fields. -/
def getPuzzleData (s : SumPuzzle) : PuzzleData :=
  { size := s.size, puzzle := s.puzzle, solution := s.grid,
    rowSums := s.rowSums, colSums := s.colSums, difficulty := s.difficulty,
    difficultyLabel := getDifficultyLabel s }

/-- Number of blank (`null`) cells of a puzzle matrix. -/
def countBlanks (p : PMat) : Nat :=
  (p.map (fun row => row.countP (fun c => c.isNone))).sum

/-- A matrix is `n × n`. -/
def dims (n : Nat) (g : Mat) : Prop :=
  g.length = n ∧ ∀ row ∈ g, row.length = n

/-- A puzzle matrix is `n × n`. -/
def pdims (n : Nat) (p : PMat) : Prop :=
  p.length = n ∧ ∀ row ∈ p, row.length = n

instance (n : Nat) (g : Mat) : Decidable (dims n g) := by
  unfold dims; infer_instance

instance (n : Nat) (p : PMat) : Decidable (pdims n p) := by
  unfold pdims; infer_instance

example : pcell [[none, some 5], [some 2, some 9]] 0 1 = some 5 := by decide

example : rowScan 2 [[none, some 5], [some 2, some 9]] 0 = (5, 1) := by decide

example :
    countBlanks (createPuzzle
      { size := 2, grid := [[3, 5], [2, 9]], puzzle := [], rowSums := [8, 11],
        colSums := [5, 14], difficulty := 0 } 1 (fun _ => 0)).puzzle = 1 := by
  decide

example :
    (estimateDifficulty
      { size := 2, grid := [[3, 5], [2, 9]],
        puzzle := [[none, some 5], [some 2, some 9]], rowSums := [8, 11],
        colSums := [5, 14], difficulty := 0 }).difficulty = 1 := by decide

/-! ## Generic bounds for the simulation loop -/

theorem estGo_bounds (size : Nat) (rowSums colSums : List Int) :
    ∀ fuel iters p, (estGo size rowSums colSums fuel iters p).1 ≤ iters + fuel ∧
      (1 ≤ fuel → iters + 1 ≤ (estGo size rowSums colSums fuel iters p).1) := by
  intro fuel
  induction fuel with
  | zero => intro iters p; simp [estGo]
  | succ f ih =>
    intro iters p
    simp only [estGo]
    split
    · exact ⟨by omega, fun _ => by omega⟩
    · split
      · exact ⟨by omega, fun _ => by omega⟩
      · rcases Nat.eq_zero_or_pos f with hf | hf
        · subst hf
          exact ⟨by simp [estGo], fun _ => by simp [estGo]⟩
        · obtain ⟨h1, h2⟩ := ih (iters + 1) (onePass size rowSums colSums p).1
          exact ⟨by omega, fun _ => by have := h2 hf; omega⟩

/-- C7: for every engine state (hence every puzzle and every row/column
sums), the difficulty simulation counts at least one round and at most the
fixed cap of 100 rounds: `1 ≤ score ≤ 100`. -/
theorem c7_score_bounds (s : SumPuzzle) :
    1 ≤ (estimateDifficulty s).difficulty ∧ (estimateDifficulty s).difficulty ≤ 100 := by
  obtain ⟨h1, h2⟩ := estGo_bounds s.size s.rowSums s.colSums maxIterations 0 s.puzzle
  exact ⟨h2 (by simp [maxIterations]), by simpa [maxIterations, estimateDifficulty] using h1⟩

/-! ## C1: difficulty labels -/

/-- C1: the difficulty-label operation maps the stored score to the four
ordinal labels exactly at the spec's thresholds — score ≤ 3 yields the
"Easy" label (the source string `"簡単 ⭐"`), scores 4–6 the "Normal" label
(`"普通 ⭐⭐"`), scores 7–10 the "Hard" label (`"難しい ⭐⭐⭐"`), and any
score above 10 the "Very Hard" label (`"非常に難しい ⭐⭐⭐⭐"`). -/
theorem c1_difficulty_label (s : SumPuzzle) :
    (s.difficulty ≤ 3 → getDifficultyLabel s = "簡単 ⭐") ∧
    (4 ≤ s.difficulty ∧ s.difficulty ≤ 6 → getDifficultyLabel s = "普通 ⭐⭐") ∧
    (7 ≤ s.difficulty ∧ s.difficulty ≤ 10 → getDifficultyLabel s = "難しい ⭐⭐⭐") ∧
    (11 ≤ s.difficulty → getDifficultyLabel s = "非常に難しい ⭐⭐⭐⭐") := by
  unfold getDifficultyLabel
  refine ⟨fun h => ?_, fun h => ?_, fun h => ?_, fun h => ?_⟩
  · rw [if_pos h]
  · rw [if_neg (by omega), if_pos (by omega)]
  · rw [if_neg (by omega), if_neg (by omega), if_pos (by omega)]
  · rw [if_neg (by omega), if_neg (by omega), if_neg (by omega)]

/-- Witness for C1 at the concrete scores 1, 4, 7, 11 and the boundary
scores 3, 6, 10. -/
theorem c1_difficulty_label_witness :
    getDifficultyLabel { construct 4 with difficulty := 1 } = "簡単 ⭐" ∧
    getDifficultyLabel { construct 4 with difficulty := 4 } = "普通 ⭐⭐" ∧
    getDifficultyLabel { construct 4 with difficulty := 7 } = "難しい ⭐⭐⭐" ∧
    getDifficultyLabel { construct 4 with difficulty := 11 } = "非常に難しい ⭐⭐⭐⭐" ∧
    getDifficultyLabel { construct 4 with difficulty := 3 } = "簡単 ⭐" ∧
    getDifficultyLabel { construct 4 with difficulty := 6 } = "普通 ⭐⭐" ∧
    getDifficultyLabel { construct 4 with difficulty := 10 } = "難しい ⭐⭐⭐" :=
  ⟨(c1_difficulty_label _).1 (by decide),
   (c1_difficulty_label _).2.1 (by decide),
   (c1_difficulty_label _).2.2.1 (by decide),
   (c1_difficulty_label _).2.2.2 (by decide),
   (c1_difficulty_label _).1 (by decide),
   (c1_difficulty_label _).2.1 (by decide),
   (c1_difficulty_label _).2.2.1 (by decide)⟩

/-! ## C10: estimateDifficulty frame -/

/-- C10: the difficulty simulation works on a private copy of the puzzle;
after it runs, `size`, `grid`, `puzzle`, `rowSums` and `colSums` are exactly
as before and the only field written is `difficulty` (which receives the
simulation's iteration count). -/
theorem c10_estimate_frame (s : SumPuzzle) :
    (estimateDifficulty s).size = s.size ∧
    (estimateDifficulty s).grid = s.grid ∧
    (estimateDifficulty s).puzzle = s.puzzle ∧
    (estimateDifficulty s).rowSums = s.rowSums ∧
    (estimateDifficulty s).colSums = s.colSums ∧
    (estimateDifficulty s).difficulty =
      (estGo s.size s.rowSums s.colSums maxIterations 0 s.puzzle).1 :=
  ⟨rfl, rfl, rfl, rfl, rfl, rfl⟩

/-! ## C8: progress observer -/

/-- C8: with an observer supplied, `generate` reports exactly the five
percentages 0, 30, 50, 70, 100 in that (non-decreasing) order — one before
grid generation and one after each of the four stages; without an observer
no callback is invoked, and the resulting engine state is identical. -/
theorem c8_progress_observer (s : SumPuzzle) (k : Nat) (randG randS : Nat → Nat) :
    (generate s k true randG randS).2 = [0, 30, 50, 70, 100] ∧
    List.Chain' (· ≤ ·) (generate s k true randG randS).2 ∧
    (generate s k false randG randS).2 = [] ∧
    (generate s k true randG randS).1 = (generate s k false randG randS).1 := by
  refine ⟨rfl, ?_, rfl, rfl⟩
  show List.Chain' (· ≤ ·) [0, 30, 50, 70, 100]
  simp [List.chain'_cons]

/-! ## C2: size 0 does not fail fast -/

/-- Counterexample to C2: constructing the engine with size 0 and running
the whole generation pipeline surfaces no failure at all — every stage
completes and the caller receives a silently empty snapshot (empty grid,
empty puzzle, empty sums) with difficulty score 1, precisely the "silently
producing an empty grid" outcome the claim rules out. -/
theorem c2_cex_size_zero :
    (generate (construct 0) 6 false (fun _ => 0) (fun _ => 0)).1.grid = [] ∧
    (generate (construct 0) 6 false (fun _ => 0) (fun _ => 0)).1.puzzle = [] ∧
    (generate (construct 0) 6 false (fun _ => 0) (fun _ => 0)).1.rowSums = [] ∧
    (generate (construct 0) 6 false (fun _ => 0) (fun _ => 0)).1.colSums = [] ∧
    (generate (construct 0) 6 false (fun _ => 0) (fun _ => 0)).1.difficulty = 1 :=
  ⟨rfl, rfl, rfl, rfl, rfl⟩

/-- Amended C2: constructing the engine with size 0 (negative sizes drive
the same zero-trip loops in the source) does not fail: for every blank
count, observer choice and random draws, generation runs to completion and
silently yields an empty grid, empty puzzle, empty sums and difficulty
score 1 — no error is reported to the caller. -/
theorem c2_amended_size_zero (k : Nat) (cb : Bool) (randG randS : Nat → Nat) :
    (generate (construct 0) k cb randG randS).1.grid = [] ∧
    (generate (construct 0) k cb randG randS).1.puzzle = [] ∧
    (generate (construct 0) k cb randG randS).1.rowSums = [] ∧
    (generate (construct 0) k cb randG randS).1.colSums = [] ∧
    (generate (construct 0) k cb randG randS).1.difficulty = 1 := by
  refine ⟨rfl, ?_, rfl, rfl, rfl⟩
  simp [generate, generateCompleteGrid, calculateSums, createPuzzle,
    estimateDifficulty, allPositions, shuffleList, fisherYates, blankCells,
    construct]

/-! ## C4: a puzzle with zero blanks scores exactly 1 -/

theorem foldl_infer_no_blank (size : Nat) (rowSums colSums : List Int) :
    ∀ (l : List (Nat × Nat)) (p : PMat),
      (∀ rc ∈ l, (pcell p rc.1 rc.2).isSome) →
      l.foldl (fun acc rc =>
        let st := inferStep size rowSums colSums acc.1 rc.1 rc.2
        (st.1, acc.2 || st.2)) (p, false) = (p, false) := by
  intro l
  induction l with
  | nil => intro p _; rfl
  | cons rc rest ih =>
    intro p h
    have hc : (pcell p rc.1 rc.2).isSome := h rc (by simp)
    obtain ⟨v, hv⟩ := Option.isSome_iff_exists.mp hc
    have hstep : inferStep size rowSums colSums p rc.1 rc.2 = (p, false) := by
      unfold inferStep
      rw [hv]
    rw [List.foldl_cons]
    simp only [hstep]
    exact ih p (fun x hx => h x (List.mem_cons_of_mem _ hx))

/-- C4: whenever the engine's puzzle contains zero blank cells (e.g. the
blank count 0 was requested), the simulation's first round runs, fills
nothing, and the loop exits after counting that one round: the score is
exactly 1, not 0. -/
theorem c4_no_blanks_score_one (s : SumPuzzle)
    (h : ∀ rc ∈ allPositions s.size, (pcell s.puzzle rc.1 rc.2).isSome) :
    (estimateDifficulty s).difficulty = 1 := by
  have hpass : onePass s.size s.rowSums s.colSums s.puzzle = (s.puzzle, false) :=
    foldl_infer_no_blank s.size s.rowSums s.colSums (allPositions s.size) s.puzzle h
  show (estGo s.size s.rowSums s.colSums maxIterations 0 s.puzzle).1 = 1
  rw [show maxIterations = 99 + 1 from rfl]
  simp [estGo, hpass]

/-- Witness for C4 at a concrete fully-revealed 2×2 engine state. -/
theorem c4_no_blanks_score_one_witness :
    (estimateDifficulty
      { size := 2, grid := [[3, 5], [2, 9]],
        puzzle := [[some 3, some 5], [some 2, some 9]], rowSums := [8, 11],
        colSums := [5, 14], difficulty := 0 }).difficulty = 1 :=
  c4_no_blanks_score_one _ (by decide)

/-! ## C3: row inference failure does not fall through to the column -/

/-- A 2×2 state in which cell (0,0) is the unique blank of its row and of
its column, the row-inferred value is 95 (outside [1,9]) and the
column-inferred value is 3 (inside [1,9]). -/
def p3cex : PMat := [[none, some 5], [some 2, some 9]]

/-- Counterexample to C3: at `p3cex` with row sums `[100, 11]` and column
sums `[5, 14]`, cell (0,0) is blank, its row has exactly one remaining
blank with out-of-range inferred value 95, its column has exactly one
remaining blank with in-range inferred value 3 — yet the round leaves the
cell blank and reports no progress: the column-based inference does NOT
fill the cell in that pass, because the source's `else if` skips the column
check whenever `rowUnknown === 1`, not only when the row value is valid. -/
theorem c3_cex_row_blocks_column :
    pcell p3cex 0 0 = none ∧
    (rowScan 2 p3cex 0).2 = 1 ∧
    ([100, 11] : List Int).getD 0 0 - (rowScan 2 p3cex 0).1 = 95 ∧
    (colScan 2 p3cex 0).2 = 1 ∧
    ([5, 14] : List Int).getD 0 0 - (colScan 2 p3cex 0).1 = 3 ∧
    pcell (onePass 2 [100, 11] [5, 14] p3cex).1 0 0 = none ∧
    (onePass 2 [100, 11] [5, 14] p3cex).2 = false := by
  decide

/-- Amended C3: the row check is evaluated first, but the column check for a
blank cell is skipped whenever the cell's row has exactly one remaining
blank — even when the row-inferred value lies outside [1,9], in which case
the visit leaves the cell blank and reports no fill (no column fallback
within that pass). -/
theorem c3_amended_row_priority (size : Nat) (rowSums colSums : List Int)
    (p : PMat) (r c : Nat) (hblank : pcell p r c = none)
    (hrow : (rowScan size p r).2 = 1)
    (hout : ¬(1 ≤ rowSums.getD r 0 - (rowScan size p r).1 ∧
              rowSums.getD r 0 - (rowScan size p r).1 ≤ 9)) :
    inferStep size rowSums colSums p r c = (p, false) := by
  unfold inferStep
  rw [hblank]
  simp only [hrow, if_true, if_pos rfl]
  rw [if_neg hout]

/-- Witness for the amended C3 at the concrete state `p3cex`. -/
theorem c3_amended_row_priority_witness :
    inferStep 2 [100, 11] [5, 14] p3cex 0 0 = (p3cex, false) :=
  c3_amended_row_priority 2 [100, 11] [5, 14] p3cex 0 0 (by decide) (by decide)
    (by decide)

/-! ## Helper lemmas on lists and matrices -/

theorem getD_set_self' {l : List α} {i : Nat} {a d : α} (h : i < l.length) :
    (l.set i a).getD i d = a := by
  simp [List.getD_eq_getElem?_getD, List.getElem?_set_self h]

theorem getD_set_ne' {l : List α} {i j : Nat} (h : i ≠ j) {a d : α} :
    (l.set i a).getD j d = l.getD j d := by
  simp [List.getD_eq_getElem?_getD, List.getElem?_set_ne h]

theorem allPositions_eq_product (n : Nat) :
    allPositions n = (List.range n) ×ˢ (List.range n) := rfl

theorem mem_allPositions {n : Nat} {rc : Nat × Nat} :
    rc ∈ allPositions n ↔ rc.1 < n ∧ rc.2 < n := by
  obtain ⟨r, c⟩ := rc
  rw [allPositions_eq_product]
  simp [List.mem_product]

theorem length_allPositions (n : Nat) : (allPositions n).length = n * n := by
  rw [allPositions_eq_product, List.length_product, List.length_range]

theorem nodup_allPositions (n : Nat) : (allPositions n).Nodup := by
  rw [allPositions_eq_product]
  exact (List.nodup_range n).product (List.nodup_range n)

theorem cons_set_perm : ∀ (t : List α) (j : Nat) (b c : α),
    t.get? j = some b → (b :: t.set j c).Perm (c :: t) := by
  intro t
  induction t with
  | nil => intro j b c h; simp at h
  | cons y t' ih =>
    intro j b c h
    match j with
    | 0 =>
      simp at h
      subst h
      exact List.Perm.swap _ _ _
    | j' + 1 =>
      simp only [List.get?] at h
      simp only [List.set]
      exact ((List.Perm.swap _ _ _).trans
        (List.Perm.cons y (ih j' b c h))).trans (List.Perm.swap _ _ _)

theorem set_set_perm : ∀ (l : List α) (i j : Nat) (a b : α),
    l.get? i = some a → l.get? j = some b → ((l.set i b).set j a).Perm l := by
  intro l
  induction l with
  | nil => intro i j a b h _; simp at h
  | cons x t ih =>
    intro i j a b hi hj
    match i, j with
    | 0, 0 =>
      simp at hi hj
      subst hi; subst hj
      simp [List.set]
    | 0, j' + 1 =>
      simp at hi
      subst hi
      simp only [List.get?] at hj
      simp only [List.set]
      exact cons_set_perm t j' b x hj
    | i' + 1, 0 =>
      simp at hj
      subst hj
      simp only [List.get?] at hi
      simp only [List.set]
      exact cons_set_perm t i' a x hi
    | i' + 1, j' + 1 =>
      simp only [List.get?] at hi hj
      simp only [List.set]
      exact List.Perm.cons x (ih i' j' a b hi hj)

theorem swapAt2_perm (l : List α) (i j : Nat) : (swapAt2 l i j).Perm l := by
  unfold swapAt2
  cases hi : l.get? i with
  | none => exact List.Perm.refl l
  | some a =>
    cases hj : l.get? j with
    | none => exact List.Perm.refl l
    | some b => exact set_set_perm l i j a b hi hj

theorem fisherYates_perm (rand : Nat → Nat) :
    ∀ (k : Nat) (l : List α), (fisherYates rand k l).Perm l := by
  intro k
  induction k with
  | zero => intro l; exact List.Perm.refl l
  | succ k ih =>
    intro l
    exact (ih _).trans (swapAt2_perm l (k + 1) _)

theorem shuffleList_perm (rand : Nat → Nat) (l : List α) :
    (shuffleList rand l).Perm l :=
  fisherYates_perm rand (l.length - 1) l

theorem length_setCell (p : PMat) (r c : Nat) (v : Option Int) :
    (setCell p r c v).length = p.length := by
  simp [setCell]

theorem row_setCell_ne {p : PMat} {r r' c : Nat} (h : r ≠ r') (v : Option Int) :
    (setCell p r c v).getD r' [] = p.getD r' [] := by
  unfold setCell
  exact getD_set_ne' h

theorem row_setCell_self {p : PMat} {r c : Nat} (h : r < p.length) (v : Option Int) :
    (setCell p r c v).getD r [] = (p.getD r []).set c v := by
  unfold setCell
  exact getD_set_self' h

theorem rowlen_setCell (p : PMat) (r c : Nat) (v : Option Int) (r' : Nat) :
    ((setCell p r c v).getD r' []).length = (p.getD r' []).length := by
  by_cases hr : r = r'
  · subst hr
    by_cases h : r < p.length
    · rw [row_setCell_self h]; simp
    · unfold setCell
      rw [List.set_eq_of_length_le (by omega)]
  · rw [row_setCell_ne hr]

theorem pcell_setCell_self {p : PMat} {r c : Nat} (hr : r < p.length)
    (hc : c < (p.getD r []).length) (v : Option Int) :
    pcell (setCell p r c v) r c = v := by
  unfold pcell
  rw [row_setCell_self hr]
  exact getD_set_self' hc

theorem pcell_setCell_ne {p : PMat} {r c r' c' : Nat}
    (h : r ≠ r' ∨ c ≠ c') (v : Option Int) :
    pcell (setCell p r c v) r' c' = pcell p r' c' := by
  unfold pcell
  rcases h with h | h
  · rw [row_setCell_ne h]
  · by_cases hr : r = r'
    · subst hr
      by_cases hlt : r < p.length
      · rw [row_setCell_self hlt]
        rw [getD_set_ne' h]
      · unfold setCell
        rw [List.set_eq_of_length_le (by omega)]
    · rw [row_setCell_ne hr]

theorem pcell_setCell_none_cases (p : PMat) (r c r' c' : Nat) :
    pcell (setCell p r c none) r' c' = pcell p r' c' ∨
    pcell (setCell p r c none) r' c' = none := by
  by_cases hr : r = r'
  · by_cases hc : c = c'
    · subst hr; subst hc
      by_cases h1 : r < p.length
      · by_cases h2 : c < (p.getD r []).length
        · right; exact pcell_setCell_self h1 h2 none
        · left
          unfold pcell
          rw [row_setCell_self h1, List.set_eq_of_length_le (by omega)]
      · left
        unfold pcell setCell
        rw [List.set_eq_of_length_le (by omega)]
    · left; exact pcell_setCell_ne (Or.inr hc) none
  · left; exact pcell_setCell_ne (Or.inl hr) none

theorem pcell_blankCells_cases :
    ∀ (ps : List (Nat × Nat)) (p : PMat) (r c : Nat),
      pcell (blankCells ps p) r c = pcell p r c ∨
      pcell (blankCells ps p) r c = none := by
  intro ps
  induction ps with
  | nil => intro p r c; left; rfl
  | cons rc rest ih =>
    intro p r c
    show pcell (blankCells rest (setCell p rc.1 rc.2 none)) r c = _ ∨ _
    rcases ih (setCell p rc.1 rc.2 none) r c with h | h
    · rcases pcell_setCell_none_cases p rc.1 rc.2 r c with h2 | h2
      · left; exact h.trans h2
      · right; exact h.trans h2
    · right; exact h

theorem sum_set_add : ∀ (l : List Nat) (i : Nat) (a : Nat), i < l.length →
    (l.set i a).sum + l.getD i 0 = l.sum + a := by
  intro l
  induction l with
  | nil => intro i a h; simp at h
  | cons x t ih =>
    intro i a h
    match i with
    | 0 => simp [List.set]; omega
    | i' + 1 =>
      simp only [List.set, List.sum_cons, List.getD_cons_succ]
      have := ih i' a (by simpa using h)
      omega

theorem countP_set_none : ∀ (row : List (Option Int)) (c : Nat),
    c < row.length → (row.getD c none).isSome →
    (row.set c none).countP (fun x => x.isNone) =
      row.countP (fun x => x.isNone) + 1 := by
  intro row
  induction row with
  | nil => intro c h _; simp at h
  | cons x t ih =>
    intro c hlen hsome
    match c with
    | 0 =>
      simp only [List.getD_cons_zero] at hsome
      obtain ⟨v, hv⟩ := Option.isSome_iff_exists.mp hsome
      subst hv
      simp [List.set, List.countP_cons]
    | c' + 1 =>
      simp only [List.getD_cons_succ] at hsome
      have := ih c' (by simpa using hlen) hsome
      simp only [List.set, List.countP_cons]
      omega

theorem countBlanks_setCell_none {p : PMat} {r c : Nat} (hr : r < p.length)
    (hc : c < (p.getD r []).length) (hsome : (pcell p r c).isSome) :
    countBlanks (setCell p r c none) = countBlanks p + 1 := by
  unfold countBlanks setCell
  rw [List.map_set]
  have hmaplen : r < (p.map (fun row => row.countP fun x => x.isNone)).length := by
    simpa using hr
  have h1 := sum_set_add (p.map (fun row => row.countP fun x => x.isNone)) r
    (((p.getD r []).set c none).countP fun x => x.isNone) hmaplen
  have h2 : (p.map (fun row => row.countP fun x => x.isNone)).getD r 0 =
      (p.getD r []).countP fun x => x.isNone := by
    simp [List.getD_eq_getElem?_getD, List.getElem?_map, List.getElem?_eq_getElem hr]
  have h3 := countP_set_none (p.getD r []) c hc hsome
  omega

theorem countBlanks_blankCells :
    ∀ (ps : List (Nat × Nat)) (p : PMat), ps.Nodup →
      (∀ rc ∈ ps, rc.1 < p.length ∧ rc.2 < (p.getD rc.1 []).length ∧
        (pcell p rc.1 rc.2).isSome) →
      countBlanks (blankCells ps p) = countBlanks p + ps.length := by
  intro ps
  induction ps with
  | nil => intro p _ _; simp [blankCells]
  | cons rc rest ih =>
    intro p hnd h
    obtain ⟨h1, h2, h3⟩ := h rc (List.mem_cons_self rc rest)
    have hset := countBlanks_setCell_none h1 h2 h3
    have hrest : ∀ x ∈ rest, x.1 < (setCell p rc.1 rc.2 none).length ∧
        x.2 < ((setCell p rc.1 rc.2 none).getD x.1 []).length ∧
        (pcell (setCell p rc.1 rc.2 none) x.1 x.2).isSome := by
      intro x hx
      obtain ⟨g1, g2, g3⟩ := h x (List.mem_cons_of_mem _ hx)
      have hne : x ≠ rc := fun he => (List.nodup_cons.mp hnd).1 (he ▸ hx)
      have hcell : pcell (setCell p rc.1 rc.2 none) x.1 x.2 = pcell p x.1 x.2 := by
        apply pcell_setCell_ne
        by_cases hxr : rc.1 = x.1
        · right
          intro hxc
          exact hne (Prod.ext_iff.mpr ⟨hxr.symm, hxc.symm⟩)
        · left; exact hxr
      refine ⟨by rwa [length_setCell], by rwa [rowlen_setCell], by rwa [hcell]⟩
    have hmain := ih (setCell p rc.1 rc.2 none) (List.nodup_cons.mp hnd).2 hrest
    show countBlanks (blankCells rest (setCell p rc.1 rc.2 none)) =
      countBlanks p + (rc :: rest).length
    simp only [List.length_cons]
    omega

theorem copy_row {g : Mat} {r : Nat} (hr : r < g.length) :
    (g.map (fun row => row.map some)).getD r [] = (g.getD r []).map some := by
  simp [List.getD_eq_getElem?_getD, List.getElem?_map, List.getElem?_eq_getElem hr]

theorem map_some_getD {row : List Int} {c : Nat} (hc : c < row.length) :
    (row.map some).getD c none = some (row.getD c 0) := by
  rw [List.getD_eq_getElem _ _ (by simpa using hc), List.getElem_map,
    List.getD_eq_getElem _ _ hc]

theorem copy_cell {g : Mat} {r c : Nat} (hr : r < g.length)
    (hc : c < (g.getD r []).length) :
    pcell (g.map (fun row => row.map some)) r c = some (gcell g r c) := by
  unfold pcell gcell
  rw [copy_row hr]
  exact map_some_getD hc

theorem copy_cell_some {g : Mat} {r c : Nat} {v : Int}
    (h : pcell (g.map (fun row => row.map some)) r c = some v) :
    v = gcell g r c := by
  by_cases hr : r < g.length
  · by_cases hc : c < (g.getD r []).length
    · rw [copy_cell hr hc] at h
      exact (Option.some.inj h).symm
    · exfalso
      unfold pcell at h
      rw [copy_row hr] at h
      rw [List.getD_eq_default _ _ (by simpa using le_of_not_lt hc)] at h
      exact Option.noConfusion h
  · exfalso
    unfold pcell at h
    rw [show (List.map (fun row => List.map some row) g).getD r [] = [] from
      List.getD_eq_default _ _ (by simpa using le_of_not_lt hr)] at h
    exact Option.noConfusion h

theorem countBlanks_copy (g : Mat) :
    countBlanks (g.map (fun row => row.map some)) = 0 := by
  unfold countBlanks
  rw [List.map_map]
  apply List.sum_eq_zero
  intro x hx
  simp only [List.mem_map, Function.comp] at hx
  obtain ⟨row, _, rfl⟩ := hx
  apply List.countP_eq_zero.mpr
  intro a ha
  simp only [List.mem_map] at ha
  obtain ⟨y, _, rfl⟩ := ha
  simp

/-- C5: for every `N × N` grid and requested blank count `k`, masking
produces a puzzle with exactly `min k (N²)` blank cells (so for `k > N²`
every cell is blanked), every non-blank puzzle cell equals the grid at the
same coordinates, and the grid itself is left unchanged. -/
theorem c5_masking (s : SumPuzzle) (k : Nat) (rand : Nat → Nat)
    (hd : dims s.size s.grid) :
    countBlanks (createPuzzle s k rand).puzzle = min k (s.size * s.size) ∧
    (∀ r c v, pcell (createPuzzle s k rand).puzzle r c = some v →
      v = gcell s.grid r c) ∧
    (createPuzzle s k rand).grid = s.grid := by
  obtain ⟨hlen, hrows⟩ := hd
  have hpuz : (createPuzzle s k rand).puzzle =
      blankCells ((shuffleList rand (allPositions s.size)).take
        (min k (allPositions s.size).length))
        (s.grid.map (fun row => row.map some)) := rfl
  have hperm := shuffleList_perm rand (allPositions s.size)
  have hshlen : (shuffleList rand (allPositions s.size)).length =
      (allPositions s.size).length := hperm.length_eq
  have hshnodup : (shuffleList rand (allPositions s.size)).Nodup :=
    hperm.nodup_iff.mpr (nodup_allPositions s.size)
  have htknodup : ((shuffleList rand (allPositions s.size)).take
      (min k (allPositions s.size).length)).Nodup :=
    List.Nodup.sublist (List.take_sublist _ _) hshnodup
  have htklen : ((shuffleList rand (allPositions s.size)).take
      (min k (allPositions s.size).length)).length = min k (s.size * s.size) := by
    rw [List.length_take, hshlen, length_allPositions]
    omega
  have htkmem : ∀ rc ∈ (shuffleList rand (allPositions s.size)).take
      (min k (allPositions s.size).length), rc.1 < s.size ∧ rc.2 < s.size := by
    intro rc hm
    exact mem_allPositions.mp (hperm.mem_iff.mp (List.mem_of_mem_take hm))
  have hgrow : ∀ r, r < s.size → (s.grid.getD r []).length = s.size := by
    intro r hr
    apply hrows
    rw [List.getD_eq_getElem _ _ (by omega)]
    exact List.getElem_mem _
  have hcopylen : (s.grid.map (fun row => row.map some)).length = s.size := by
    simpa using hlen
  have hcopyrow : ∀ r, r < s.size →
      ((s.grid.map (fun row => row.map some)).getD r []).length = s.size := by
    intro r hr
    rw [copy_row (show r < s.grid.length by omega), List.length_map]
    exact hgrow r hr
  have hblankhyp : ∀ rc ∈ (shuffleList rand (allPositions s.size)).take
      (min k (allPositions s.size).length),
      rc.1 < (s.grid.map (fun row => row.map some)).length ∧
      rc.2 < ((s.grid.map (fun row => row.map some)).getD rc.1 []).length ∧
      (pcell (s.grid.map (fun row => row.map some)) rc.1 rc.2).isSome := by
    intro rc hm
    obtain ⟨h1, h2⟩ := htkmem rc hm
    refine ⟨by omega, ?_, ?_⟩
    · rw [hcopyrow rc.1 h1]; exact h2
    · rw [copy_cell (show rc.1 < s.grid.length by omega)
        (show rc.2 < (s.grid.getD rc.1 []).length by rw [hgrow rc.1 h1]; exact h2)]
      rfl
  have hcount := countBlanks_blankCells _ _ htknodup hblankhyp
  refine ⟨?_, ?_, rfl⟩
  · rw [hpuz, hcount, countBlanks_copy, htklen]
    omega
  · intro r c v hv
    rw [hpuz] at hv
    rcases pcell_blankCells_cases ((shuffleList rand (allPositions s.size)).take
      (min k (allPositions s.size).length))
      (s.grid.map (fun row => row.map some)) r c with hcase | hcase
    · exact copy_cell_some (hcase ▸ hv)
    · rw [hcase] at hv
      exact Option.noConfusion hv

/-- Witness for C5 at a concrete 2×2 engine, blank count 1 and an explicit
draw stream. -/
theorem c5_masking_witness :
    dims 2 [[1, 2], [3, 4]] ∧
    countBlanks (createPuzzle
      { size := 2, grid := [[1, 2], [3, 4]], puzzle := [], rowSums := [],
        colSums := [], difficulty := 0 } 1 (fun _ => 0)).puzzle =
      min 1 (2 * 2) :=
  ⟨by decide,
   (c5_masking
     { size := 2, grid := [[1, 2], [3, 4]], puzzle := [], rowSums := [],
       colSums := [], difficulty := 0 } 1 (fun _ => 0) (by decide)).1⟩

/-! ## C6: the pipeline invariant -/

/-- The engine-state predicate of the claim: the grid is `size × size` with
every cell in `[1,9]`, and `rowSums` / `colSums` have length `size` and hold
exactly the row and column totals of the grid. -/
def EngineInv (s : SumPuzzle) : Prop :=
  dims s.size s.grid ∧
  (∀ r, r < s.size → ∀ c, c < s.size →
    1 ≤ gcell s.grid r c ∧ gcell s.grid r c ≤ 9) ∧
  s.rowSums.length = s.size ∧ s.colSums.length = s.size ∧
  (∀ r, r < s.size → s.rowSums.getD r 0 = (s.grid.getD r []).sum) ∧
  (∀ c, c < s.size → s.colSums.getD c 0 =
    ((List.range s.size).map (fun r => gcell s.grid r c)).sum)

theorem foldl_add_map (f : β → Int) : ∀ (l : List β) (a : Int),
    l.foldl (fun acc x => acc + f x) a = a + (l.map f).sum := by
  intro l
  induction l with
  | nil => intro a; simp
  | cons x t ih =>
    intro a
    simp only [List.foldl_cons, List.map_cons, List.sum_cons, ih]
    ring

theorem foldl_add (l : List Int) (a : Int) : l.foldl (· + ·) a = a + l.sum := by
  simpa using foldl_add_map (fun x : Int => x) l a

theorem randomDigit_range (d : Nat) : 1 ≤ randomDigit d ∧ randomDigit d ≤ 9 := by
  unfold randomDigit
  have h : d % 9 < 9 := Nat.mod_lt _ (by omega)
  omega

theorem generateCompleteGrid_spec (s : SumPuzzle) (rand : Nat → Nat) :
    dims s.size (generateCompleteGrid s rand).grid ∧
    (∀ r c, r < s.size → c < s.size →
      1 ≤ gcell (generateCompleteGrid s rand).grid r c ∧
      gcell (generateCompleteGrid s rand).grid r c ≤ 9) := by
  constructor
  · constructor
    · simp [generateCompleteGrid]
    · intro row hrow
      simp only [generateCompleteGrid, List.mem_map, List.mem_range] at hrow
      obtain ⟨i, _, rfl⟩ := hrow
      simp
  · intro r c hr hc
    have hrow2 : ((List.range s.size).map (fun i =>
        (List.range s.size).map (fun j => randomDigit (rand (i * s.size + j))))).getD r [] =
        (List.range s.size).map (fun j => randomDigit (rand (r * s.size + j))) := by
      rw [List.getD_eq_getElem _ _ (by simpa using hr)]
      simp
    have hcell : gcell (generateCompleteGrid s rand).grid r c =
        randomDigit (rand (r * s.size + c)) := by
      show gcell ((List.range s.size).map (fun i =>
        (List.range s.size).map (fun j => randomDigit (rand (i * s.size + j))))) r c = _
      unfold gcell
      rw [hrow2, List.getD_eq_getElem _ _ (by simpa using hc)]
      simp
    rw [hcell]
    exact randomDigit_range _

theorem calculateSums_spec (s : SumPuzzle) (hd : dims s.size s.grid) :
    (calculateSums s).rowSums.length = s.size ∧
    (calculateSums s).colSums.length = s.size ∧
    (∀ r, r < s.size → (calculateSums s).rowSums.getD r 0 = (s.grid.getD r []).sum) ∧
    (∀ c, c < s.size → (calculateSums s).colSums.getD c 0 =
      ((List.range s.size).map (fun r => gcell s.grid r c)).sum) := by
  obtain ⟨hlen, _⟩ := hd
  refine ⟨by simp [calculateSums, hlen], by simp [calculateSums], ?_, ?_⟩
  · intro r hr
    show ((s.grid.map (fun row => row.foldl (· + ·) 0)).getD r 0) = _
    rw [List.getD_eq_getElem _ _ (by simpa using by omega : r < (s.grid.map
      (fun row => row.foldl (· + ·) 0)).length), List.getElem_map]
    rw [foldl_add, List.getD_eq_getElem _ _ (by omega)]
    omega
  · intro c hc
    show (((List.range s.size).map (fun c => (List.range s.size).foldl
      (fun sum r => sum + gcell s.grid r c) 0)).getD c 0) = _
    rw [List.getD_eq_getElem _ _ (by simpa using hc)]
    simp only [List.getElem_map, List.getElem_range]
    rw [foldl_add_map]
    omega

/-- C6: for every size ≥ 1 and every sequence of random draws, after grid
generation and sum computation the engine satisfies `EngineInv` (grid is
`size × size`, every cell in `[1,9]`, `rowSums`/`colSums` are exactly the
row/column totals), and the later pipeline stages — masking and difficulty
estimation (and the pure label/snapshot reads, which by type cannot write) —
preserve the predicate. -/
theorem c6_pipeline_invariant (size : Nat) (_hsz : 1 ≤ size) (k : Nat)
    (randG randS : Nat → Nat) :
    EngineInv (calculateSums (generateCompleteGrid (construct size) randG)) ∧
    EngineInv (createPuzzle
      (calculateSums (generateCompleteGrid (construct size) randG)) k randS) ∧
    EngineInv (estimateDifficulty (createPuzzle
      (calculateSums (generateCompleteGrid (construct size) randG)) k randS)) := by
  have hgen := generateCompleteGrid_spec (construct size) randG
  have hd : dims (calculateSums (generateCompleteGrid (construct size) randG)).size
      (calculateSums (generateCompleteGrid (construct size) randG)).grid := hgen.1
  have hsums := calculateSums_spec (generateCompleteGrid (construct size) randG) hgen.1
  have hmain : EngineInv (calculateSums (generateCompleteGrid (construct size) randG)) :=
    ⟨hgen.1, fun r hr c hc => hgen.2 r c hr hc, hsums.1, hsums.2.1,
      hsums.2.2.1, hsums.2.2.2⟩
  exact ⟨hmain, hmain, hmain⟩

/-- Witness for C6 at size 2 with explicit draw streams. -/
theorem c6_pipeline_invariant_witness :
    1 ≤ 2 ∧ EngineInv (calculateSums (generateCompleteGrid (construct 2) (fun n => n))) :=
  ⟨by decide, (c6_pipeline_invariant 2 (by decide) 1 (fun n => n) (fun n => n)).1⟩

/-! ## C9: the simulation only writes answer-key values -/

theorem scan_foldl_spec (f : Nat → Option Int) : ∀ (l : List Nat) (a : Int) (b : Nat),
    l.foldl (fun acc x =>
      match f x with
      | some v => (acc.1 + v, acc.2)
      | none => (acc.1, acc.2 + 1)) (a, b) =
    (a + (l.map (fun x => (f x).getD 0)).sum, b + l.countP (fun x => (f x).isNone)) := by
  intro l
  induction l with
  | nil => intro a b; simp
  | cons x t ih =>
    intro a b
    rw [List.foldl_cons]
    cases hx : f x with
    | some v =>
      simp only [hx, ih, List.map_cons, List.sum_cons, List.countP_cons]
      rw [Prod.mk.injEq]
      constructor
      · simp [hx]; ring
      · simp [hx]
    | none =>
      simp only [hx, ih, List.map_cons, List.sum_cons, List.countP_cons]
      rw [Prod.mk.injEq]
      constructor
      · simp [hx]
      · simp [hx]; omega

theorem rowScan_spec (size : Nat) (p : PMat) (r : Nat) :
    rowScan size p r =
      (((List.range size).map (fun c => (pcell p r c).getD 0)).sum,
       (List.range size).countP (fun c => (pcell p r c).isNone)) := by
  unfold rowScan
  have h := scan_foldl_spec (fun c => pcell p r c) (List.range size) 0 0
  simpa using h

theorem colScan_spec (size : Nat) (p : PMat) (c : Nat) :
    colScan size p c =
      (((List.range size).map (fun r => (pcell p r c).getD 0)).sum,
       (List.range size).countP (fun r => (pcell p r c).isNone)) := by
  unfold colScan
  have h := scan_foldl_spec (fun r => pcell p r c) (List.range size) 0 0
  simpa using h

theorem countP_eq_one_unique {l : List α} {q : α → Bool} (h : l.countP q = 1)
    {a : α} (ha : a ∈ l) (hqa : q a) : ∀ b ∈ l, q b → b = a := by
  intro b hb hqb
  rw [List.countP_eq_length_filter] at h
  obtain ⟨u, hu⟩ := List.length_eq_one.mp h
  have ha' : a ∈ l.filter q := List.mem_filter.mpr ⟨ha, hqa⟩
  have hb' : b ∈ l.filter q := List.mem_filter.mpr ⟨hb, hqb⟩
  rw [hu, List.mem_singleton] at ha' hb'
  rw [ha', hb']

theorem map_sum_split : ∀ (l : List Nat), l.Nodup → ∀ (f g : Nat → Int) (c : Nat),
    c ∈ l → (∀ x ∈ l, x ≠ c → f x = g x) → f c = 0 →
    (l.map g).sum = g c + (l.map f).sum := by
  intro l
  induction l with
  | nil => intro _ f g c hc _ _; simp at hc
  | cons x t ih =>
    intro hnd f g c hc hfg hfc
    rcases List.mem_cons.mp hc with rfl | hct
    · have hxt : c ∉ t := (List.nodup_cons.mp hnd).1
      have hmap : t.map f = t.map g :=
        List.map_congr_left fun y hy =>
          hfg y (List.mem_cons_of_mem _ hy) (fun he => hxt (he ▸ hy))
      simp only [List.map_cons, List.sum_cons, hfc, hmap]
      ring
    · have hxc : x ≠ c := fun he => (List.nodup_cons.mp hnd).1 (he ▸ hct)
      have hx : f x = g x := hfg x (List.mem_cons_self _ _) hxc
      have hrec := ih (List.nodup_cons.mp hnd).2 f g c hct
        (fun y hy hyne => hfg y (List.mem_cons_of_mem _ hy) hyne) hfc
      simp only [List.map_cons, List.sum_cons, hrec, hx]
      ring

/-- The context the pipeline establishes before `estimateDifficulty` runs:
the grid is `size × size` with cells in `[1,9]` and the stored sums are the
exact row/column totals. -/
def Ctx (size : Nat) (g : Mat) (rowSums colSums : List Int) : Prop :=
  dims size g ∧
  (∀ r, r < size → ∀ c, c < size → 1 ≤ gcell g r c ∧ gcell g r c ≤ 9) ∧
  (∀ r, r < size →
    rowSums.getD r 0 = ((List.range size).map (fun c => gcell g r c)).sum) ∧
  (∀ c, c < size →
    colSums.getD c 0 = ((List.range size).map (fun r => gcell g r c)).sum)

/-- A working puzzle agrees with the answer key: it is `size × size` and
every cell is either blank or holds exactly the grid's value. -/
def Agrees (size : Nat) (g : Mat) (p : PMat) : Prop :=
  pdims size p ∧
  ∀ r, r < size → ∀ c, c < size →
    pcell p r c = none ∨ pcell p r c = some (gcell g r c)

instance (size : Nat) (g : Mat) (rowSums colSums : List Int) :
    Decidable (Ctx size g rowSums colSums) := by
  unfold Ctx; infer_instance

instance (size : Nat) (g : Mat) (p : PMat) : Decidable (Agrees size g p) := by
  unfold Agrees; infer_instance

theorem pdims_row {size : Nat} {p : PMat} (h : pdims size p) {r : Nat}
    (hr : r < size) : (p.getD r []).length = size := by
  obtain ⟨hl, hrow⟩ := h
  apply hrow
  rw [List.getD_eq_getElem _ _ (by omega)]
  exact List.getElem_mem _

theorem row_infer_value {size : Nat} {g : Mat} {rowSums colSums : List Int}
    (hctx : Ctx size g rowSums colSums) {p : PMat} (hag : Agrees size g p)
    {r c : Nat} (hr : r < size) (hc : c < size)
    (hblank : pcell p r c = none) (hcount : (rowScan size p r).2 = 1) :
    rowSums.getD r 0 - (rowScan size p r).1 = gcell g r c := by
  obtain ⟨_, _, hrow, _⟩ := hctx
  obtain ⟨_, hagc⟩ := hag
  rw [rowScan_spec] at hcount
  simp only at hcount
  have huniq := countP_eq_one_unique hcount (List.mem_range.mpr hc)
    (by simp [hblank])
  have hknown : ∀ x ∈ List.range size, x ≠ c →
      (fun c' => (pcell p r c').getD 0) x = (fun c' => gcell g r c') x := by
    intro x hx hne
    rcases hagc r hr x (List.mem_range.mp hx) with hno | hsome
    · exact absurd (huniq x hx (by simp [hno])) hne
    · simp [hsome]
  have hsplit := map_sum_split (List.range size) (List.nodup_range size)
    (fun c' => (pcell p r c').getD 0) (fun c' => gcell g r c') c
    (List.mem_range.mpr hc) hknown (by simp [hblank])
  rw [rowScan_spec]
  simp only
  rw [hrow r hr, hsplit]
  ring

theorem col_infer_value {size : Nat} {g : Mat} {rowSums colSums : List Int}
    (hctx : Ctx size g rowSums colSums) {p : PMat} (hag : Agrees size g p)
    {r c : Nat} (hr : r < size) (hc : c < size)
    (hblank : pcell p r c = none) (hcount : (colScan size p c).2 = 1) :
    colSums.getD c 0 - (colScan size p c).1 = gcell g r c := by
  obtain ⟨_, _, _, hcol⟩ := hctx
  obtain ⟨_, hagc⟩ := hag
  rw [colScan_spec] at hcount
  simp only at hcount
  have huniq := countP_eq_one_unique hcount (List.mem_range.mpr hr)
    (by simp [hblank])
  have hknown : ∀ x ∈ List.range size, x ≠ r →
      (fun r' => (pcell p r' c).getD 0) x = (fun r' => gcell g r' c) x := by
    intro x hx hne
    rcases hagc x (List.mem_range.mp hx) c hc with hno | hsome
    · exact absurd (huniq x hx (by simp [hno])) hne
    · simp [hsome]
  have hsplit := map_sum_split (List.range size) (List.nodup_range size)
    (fun r' => (pcell p r' c).getD 0) (fun r' => gcell g r' c) r
    (List.mem_range.mpr hr) hknown (by simp [hblank])
  rw [colScan_spec]
  simp only
  rw [hcol c hc, hsplit]
  ring

theorem agrees_setCell {size : Nat} {g : Mat} {p : PMat}
    (hag : Agrees size g p) {r c : Nat} (hr : r < size) (hc : c < size) :
    Agrees size g (setCell p r c (some (gcell g r c))) := by
  obtain ⟨hpd, hcells⟩ := hag
  have hplen : p.length = size := hpd.1
  have hprowlen : (p.getD r []).length = size := pdims_row hpd hr
  constructor
  · constructor
    · rw [length_setCell]; exact hplen
    · intro row hrow
      rcases List.mem_or_eq_of_mem_set hrow with h | h
      · exact hpd.2 _ h
      · subst h
        rw [List.length_set]
        exact hprowlen
  · intro r' hr' c' hc'
    by_cases he : r = r' ∧ c = c'
    · obtain ⟨rfl, rfl⟩ := he
      right
      rw [pcell_setCell_self (by omega) (by omega)]
    · have hne : r ≠ r' ∨ c ≠ c' := by tauto
      rw [pcell_setCell_ne hne]
      exact hcells r' hr' c' hc'

theorem inferStep_agrees {size : Nat} {g : Mat} {rowSums colSums : List Int}
    (hctx : Ctx size g rowSums colSums) {p : PMat} (hag : Agrees size g p)
    {r c : Nat} (hr : r < size) (hc : c < size) :
    Agrees size g (inferStep size rowSums colSums p r c).1 := by
  have hcells := hctx.2.1
  unfold inferStep
  cases hcell : pcell p r c with
  | some v => exact hag
  | none =>
    simp only
    by_cases h1 : (rowScan size p r).2 = 1
    · have hv := row_infer_value hctx hag hr hc hcell h1
      rw [if_pos h1, if_pos (by rw [hv]; exact hcells r hr c hc)]
      rw [hv]
      exact agrees_setCell hag hr hc
    · rw [if_neg h1]
      by_cases h2 : (colScan size p c).2 = 1
      · have hv := col_infer_value hctx hag hr hc hcell h2
        rw [if_pos h2, if_pos (by rw [hv]; exact hcells r hr c hc)]
        rw [hv]
        exact agrees_setCell hag hr hc
      · rw [if_neg h2]
        exact hag

theorem inferStep_fills {size : Nat} {g : Mat} {rowSums colSums : List Int}
    (hctx : Ctx size g rowSums colSums) {p : PMat} (hag : Agrees size g p)
    {r c : Nat} (hr : r < size) (hc : c < size) (hblank : pcell p r c = none)
    (hone : (rowScan size p r).2 = 1 ∨ (colScan size p c).2 = 1) :
    (inferStep size rowSums colSums p r c).2 = true := by
  have hcells := hctx.2.1
  unfold inferStep
  rw [hblank]
  simp only
  by_cases h1 : (rowScan size p r).2 = 1
  · have hv := row_infer_value hctx hag hr hc hblank h1
    rw [if_pos h1, if_pos (by rw [hv]; exact hcells r hr c hc)]
  · have h2 : (colScan size p c).2 = 1 := by tauto
    have hv := col_infer_value hctx hag hr hc hblank h2
    rw [if_neg h1, if_pos h2, if_pos (by rw [hv]; exact hcells r hr c hc)]

theorem foldl_infer_agrees {size : Nat} {g : Mat} {rowSums colSums : List Int}
    (hctx : Ctx size g rowSums colSums) :
    ∀ (l : List (Nat × Nat)) (p : PMat) (flag : Bool),
      (∀ rc ∈ l, rc.1 < size ∧ rc.2 < size) → Agrees size g p →
      Agrees size g (l.foldl (fun acc rc =>
        let st := inferStep size rowSums colSums acc.1 rc.1 rc.2
        (st.1, acc.2 || st.2)) (p, flag)).1 := by
  intro l
  induction l with
  | nil => intro p flag _ hag; exact hag
  | cons rc rest ih =>
    intro p flag hmem hag
    rw [List.foldl_cons]
    exact ih _ _ (fun x hx => hmem x (List.mem_cons_of_mem _ hx))
      (inferStep_agrees hctx hag (hmem rc (List.mem_cons_self _ _)).1
        (hmem rc (List.mem_cons_self _ _)).2)

theorem onePass_agrees {size : Nat} {g : Mat} {rowSums colSums : List Int}
    (hctx : Ctx size g rowSums colSums) {p : PMat} (hag : Agrees size g p) :
    Agrees size g (onePass size rowSums colSums p).1 := by
  unfold onePass
  exact foldl_infer_agrees hctx (allPositions size) p false
    (fun rc hrc => mem_allPositions.mp hrc) hag

theorem estGo_agrees {size : Nat} {g : Mat} {rowSums colSums : List Int}
    (hctx : Ctx size g rowSums colSums) :
    ∀ (fuel iters : Nat) (p : PMat), Agrees size g p →
      Agrees size g (estGo size rowSums colSums fuel iters p).2 := by
  intro fuel
  induction fuel with
  | zero => intro iters p hag; exact hag
  | succ f ih =>
    intro iters p hag
    have hpass := onePass_agrees hctx hag
    simp only [estGo]
    split
    · exact hpass
    · split
      · exact hpass
      · exact ih _ _ hpass

/-- C9: under the pipeline's invariants (puzzle derived from the grid by
blanking, sums computed from that grid, grid cells in `[1,9]`), the final
working puzzle of the difficulty simulation still agrees with the answer key
cell-by-cell — since a visit never overwrites a non-blank cell, every value
ever written equals the solution grid's value at that cell — and, whenever a
blank cell's row or column has exactly one remaining blank, its visit fills
the cell: the `[1,9]` range guard never rejects an inferred value. -/
theorem c9_simulation_writes_answer_key (s : SumPuzzle)
    (hctx : Ctx s.size s.grid s.rowSums s.colSums)
    (hag : Agrees s.size s.grid s.puzzle) :
    Agrees s.size s.grid
      (estGo s.size s.rowSums s.colSums maxIterations 0 s.puzzle).2 ∧
    (∀ p r c, Agrees s.size s.grid p → r < s.size → c < s.size →
      pcell p r c = none →
      ((rowScan s.size p r).2 = 1 ∨ (colScan s.size p c).2 = 1) →
      (inferStep s.size s.rowSums s.colSums p r c).2 = true) :=
  ⟨estGo_agrees hctx maxIterations 0 s.puzzle hag,
   fun _ _ _ hag' hr hc hblank hone =>
     inferStep_fills hctx hag' hr hc hblank hone⟩

/-- Witness for C9 at the spec's concrete 2×2 scenario. -/
theorem c9_simulation_writes_answer_key_witness :
    Ctx 2 [[3, 5], [2, 9]] [8, 11] [5, 14] ∧
    Agrees 2 [[3, 5], [2, 9]] [[none, some 5], [some 2, some 9]] ∧
    Agrees 2 [[3, 5], [2, 9]]
      (estGo 2 [8, 11] [5, 14] maxIterations 0
        [[none, some 5], [some 2, some 9]]).2 :=
  ⟨by decide, by decide,
   (c9_simulation_writes_answer_key
     { size := 2, grid := [[3, 5], [2, 9]],
       puzzle := [[none, some 5], [some 2, some 9]], rowSums := [8, 11],
       colSums := [5, 14], difficulty := 0 } (by decide) (by decide)).1⟩
